import Mathlib

/-!
Verification of the `art_proc` image-outline pipeline against its
natural-language specification.

The development shallowly embeds the Python sources:

* `art/_base_image.py` (`BaseImage.__init__`, the Grayscale Normalizer) is
  embedded as `baseImageInit`, a function over an explicit array store so
  that aliasing and mutation of the caller's array are observable.  Python
  attribute access on a never-assigned attribute (an `AttributeError`) is
  modelled by reading an `Option` field that is still `none`.
* `art/gui.py` (`GUI.parse_args` and `options_mapper`) is embedded as
  `parse_args` over a record of parsed argument values.  Logging, file
  loading and the GUI toolkit are I/O glue and are not modelled.
* The boundary module (`art.boundary`) is not part of the source tree;
  the Boundary Extractor, Post Filter and Compositor invert operation are
  modelled from the specification text (see the doc comments marked
  "Modelled from the spec").

Array values are exact rationals; numpy float arithmetic is modelled by
exact arithmetic, which is adequate for the control-flow and structural
properties proved here.
-/

namespace ArtProc

/-- A numpy array: a shape (list of dimension sizes) together with its
row-major flattened data. -/
structure NpArray where
  shape : List Nat
  data : List ℚ
deriving DecidableEq

/-- The array store: Python heap cells holding numpy arrays.  A reference
is an index into the store; fresh arrays are appended at the end. -/
abbrev Store := List NpArray

/-- Read the array behind a reference (out-of-range reads default to the
empty array; theorems only use in-range references). -/
def readArr (st : Store) (r : Nat) : NpArray :=
  st.getD r ⟨[], []⟩

/-- Allocate a fresh array cell, returning the new store and the new
reference. -/
def alloc (st : Store) (a : NpArray) : Store × Nat :=
  (st ++ [a], st.length)

/-- Alpha-composite flattened RGBA pixel data over a white background,
as `skimage.color.rgba2rgb` does with its default background (1,1,1):
each channel becomes `alpha * channel + (1 - alpha)`. -/
def rgbaChunks : List ℚ → List ℚ
  | r :: g :: b :: a :: rest =>
      (a * r + (1 - a)) :: (a * g + (1 - a)) :: (a * b + (1 - a)) :: rgbaChunks rest
  | _ => []

/-- Embedding of `skimage.color.rgba2rgb`: alpha-composite an (H, W, 4) array over a
white background, yielding an (H, W, 3) array. -/
def rgba2rgb (a : NpArray) : NpArray :=
  ⟨a.shape.take 2 ++ [3], rgbaChunks a.data⟩

/-- Luminance-weighted combination of flattened RGB pixel data with the
`skimage.color.rgb2gray` weights 0.2125, 0.7154, 0.0721. -/
def grayChunks : List ℚ → List ℚ
  | r :: g :: b :: rest =>
      ((2125 / 10000) * r + (7154 / 10000) * g + (721 / 10000) * b) :: grayChunks rest
  | _ => []

/-- Embedding of `skimage.color.rgb2gray`: reduce an (H, W, 3) array to an (H, W)
luminance array. -/
def rgb2gray (a : NpArray) : NpArray :=
  ⟨a.shape.take 2, grayChunks a.data⟩

/-- The exceptions `BaseImage.__init__` can raise: the explicit
`ValueError` for invalid shapes, and the `AttributeError` from reading
`self.gray_image` when it was never assigned. -/
inductive InitErr where
  | valueError
  | attributeError
deriving DecidableEq

/-- The array-valued attributes of a constructed `BaseImage`:
references into the store for `self.rgb_image` and `self.gray_image`
(`none` while the attribute is unassigned), and the `self._orig_gray`
flag. -/
structure BaseImageState where
  rgb_image : Nat
  gray_image : Option Nat
  orig_gray : Bool
deriving DecidableEq

/-- Embedding of `BaseImage.__init__` from `art/_base_image.py`, mirrored over the
array store.  `rgb_image` is the caller's array reference.  Mirrors the
source line by line: the shape dispatch (`len == 2` copies the input into
`gray_image`; `len == 3` with last dimension 4 rebinds `rgb_image` to
`rgba2rgb(...)`; any other number of dimensions raises `ValueError`),
followed by `if not self._orig_gray: self.gray_image =
rgb2gray(self.gray_image)`, whose read of a still-unassigned
`self.gray_image` raises `AttributeError`. -/
def baseImageInit (st : Store) (rgb_image : Nat) : Store × Except InitErr BaseImageState :=
  let self0 : BaseImageState := { rgb_image := rgb_image, gray_image := none, orig_gray := false }
  let im_shape := (readArr st rgb_image).shape
  let branch : Store × Except InitErr BaseImageState :=
    if im_shape.length = 2 then
      let (st1, g) := alloc st (readArr st rgb_image)
      (st1, Except.ok { self0 with gray_image := some g, orig_gray := true })
    else if im_shape.length = 3 ∧ im_shape.getLast? = some 4 then
      let (st1, r2) := alloc st (rgba2rgb (readArr st rgb_image))
      (st1, Except.ok { self0 with rgb_image := r2 })
    else if im_shape.length ≠ 3 then
      (st, Except.error InitErr.valueError)
    else
      (st, Except.ok self0)
  match branch with
  | (st1, Except.error e) => (st1, Except.error e)
  | (st1, Except.ok s) =>
    if s.orig_gray then
      (st1, Except.ok s)
    else
      match s.gray_image with
      | none => (st1, Except.error InitErr.attributeError)
      | some g =>
        let (st2, g2) := alloc st1 (rgb2gray (readArr st1 g))
        (st2, Except.ok { s with gray_image := some g2 })

/-- Embedding of `GUI.options_mapper` from `art/gui.py`: association list from dropdown
option text to the internal method name passed to the boundary module. -/
def options_mapper : List (String × String) :=
  [("Gamma", "gamma"),
   ("Sigmoid", "sigmoid"),
   ("CLAHE", "clahe"),
   ("Histogram Equalization", "histeq"),
   ("Contrast Stretching", "contrast_stretch")]

/-- The dropdown choices offered by `parser()` for `--exposure_algo` in
`art/gui.py`. -/
def exposure_algo_choices : List String :=
  ["Gamma", "Sigmoid", "Log",
   "CLAHE",
   "Histogram Equalization", "Contrast Stretching"]

/-- The fields of the parsed-argument object consumed by
`GUI.parse_args`.  Python floats (`width`, `height`) are modelled as
exact rationals; `resolution` and `n_classes` are integers. -/
structure Args where
  filename : List String
  output_dir : String
  is_photo : Bool
  exposure_algo : String
  n_classes : ℤ
  filetype : String
  transp_bg : Bool
  invert : Bool
  post_filter : Bool
  width : ℚ
  height : ℚ
  resolution : ℤ
deriving DecidableEq

/-- The attributes `GUI.parse_args` stores on `self`. -/
structure GUIState where
  files : List String
  output_dir : String
  is_photo : Bool
  exposure_algo : String
  n_classes : ℤ
  output_ftype : String
  transp_bg : Bool
  invert : Bool
  apply_post : Bool
  resolution : ℤ
  resize_settings : Option (ℚ × ℚ)
deriving DecidableEq

/-- Embedding of `GUI.parse_args` from `art/gui.py`, field by field.  The
exposure label goes through `options_mapper.get(label, "Sigmoid")`; the
resolution is replaced by 96 unless it exceeds 50; `resize_settings` is
first set to `(width * resolution, height * resolution)` and then
overwritten with `none` when either dimension is non-positive. -/
def parse_args (a : Args) : GUIState :=
  let exposure_algo := (options_mapper.lookup a.exposure_algo).getD "Sigmoid"
  let resolution : ℤ := if a.resolution > 50 then a.resolution else 96
  let resize0 : ℚ × ℚ := (a.width * (resolution : ℚ), a.height * (resolution : ℚ))
  let resize_settings : Option (ℚ × ℚ) :=
    if a.width ≤ 0 ∨ a.height ≤ 0 then none else some resize0
  { files := a.filename
    output_dir := a.output_dir
    is_photo := a.is_photo
    exposure_algo := exposure_algo
    n_classes := a.n_classes
    output_ftype := a.filetype
    transp_bg := a.transp_bg
    invert := a.invert
    apply_post := a.post_filter
    resolution := resolution
    resize_settings := resize_settings }

/-- The fixed 4-neighbor connectivity convention on an H × W pixel grid:
two pixels are adjacent when they agree on one coordinate and differ by
exactly one on the other.  Shared by the Boundary Extractor and the Post
Filter (spec §4.4, §4.5: "same connectivity convention as extraction"). -/
def adj4 {H W : ℕ} (p q : Fin H × Fin W) : Prop :=
  (p.1.val = q.1.val ∧ (p.2.val + 1 = q.2.val ∨ q.2.val + 1 = p.2.val)) ∨
  (p.2.val = q.2.val ∧ (p.1.val + 1 = q.1.val ∨ q.1.val + 1 = p.1.val))

instance {H W : ℕ} (p q : Fin H × Fin W) : Decidable (adj4 p q) := by
  unfold adj4; infer_instance

/-- Modelled from the spec: the in-bounds 4-neighbors of a pixel,
assembled with explicit bounds checks in each of the four directions, so
that a border pixel simply has a shorter neighbor list (spec §4.4,
`art.boundary` is not in the source tree). -/
def neighborList {H W : ℕ} (p : Fin H × Fin W) : List (Fin H × Fin W) :=
  (if h : p.2.val + 1 < W then [(p.1, ⟨p.2.val + 1, h⟩)] else []) ++
  (if 0 < p.2.val then [(p.1, ⟨p.2.val - 1, Nat.lt_of_le_of_lt (Nat.sub_le _ _) p.2.isLt⟩)] else []) ++
  (if h : p.1.val + 1 < H then [(⟨p.1.val + 1, h⟩, p.2)] else []) ++
  (if 0 < p.1.val then [(⟨p.1.val - 1, Nat.lt_of_le_of_lt (Nat.sub_le _ _) p.1.isLt⟩, p.2)] else [])

/-- Modelled from the spec: the Boundary Extractor (spec §4.4,
`art.boundary` is not in the source tree).  For every pixel it compares
the pixel's label to each in-bounds neighbor and marks the pixel when any
neighbor's label differs. -/
def boundaryMask {H W : ℕ} (lab : Fin H × Fin W → ℕ) (p : Fin H × Fin W) : Bool :=
  (neighborList p).any (fun q => lab q != lab p)

/-- One step of flood fill inside a mask: add every "on" pixel adjacent
to the current set. -/
def expandStep {H W : ℕ} (m : Fin H × Fin W → Bool) (s : Finset (Fin H × Fin W)) :
    Finset (Fin H × Fin W) :=
  s ∪ Finset.univ.filter (fun q => m q = true ∧ ∃ r ∈ s, adj4 r q)

/-- Modelled from the spec: the connected component of a pixel within a
mask (spec §4.5 and glossary; `art.boundary` is not in the source tree),
computed by saturating the flood-fill step.  Iterating the step once per
pixel of the grid reaches the fixpoint. -/
def component {H W : ℕ} (m : Fin H × Fin W → Bool) (p : Fin H × Fin W) :
    Finset (Fin H × Fin W) :=
  (expandStep m)^[Fintype.card (Fin H × Fin W)] {p}

/-- Modelled from the spec: the Post Filter (spec §4.5, `art.boundary` is
not in the source tree).  A pixel survives when it is on in the input
mask and its connected component has at least `t` pixels; components
below the minimum size are zeroed out whole. -/
def postFilterMask {H W : ℕ} (m : Fin H × Fin W → Bool) (t : ℕ) (p : Fin H × Fin W) : Bool :=
  m p && decide (t ≤ (component m p).card)

/-- Connectivity inside a mask: reflexive-transitive closure of "step to
an adjacent on-pixel".  This is the specification-side notion of two
pixels lying in the same connected component. -/
def Conn {H W : ℕ} (m : Fin H × Fin W → Bool) :
    Fin H × Fin W → Fin H × Fin W → Prop :=
  Relation.ReflTransGen (fun a b => m b = true ∧ adj4 a b)

/-- Modelled from the spec: the Compositor's invert operation (spec §4.6,
`art.boundary` is not in the source tree): the value complement
`v ↦ 1 - v` applied to every entry of the raster. -/
def invertRaster (a : NpArray) : NpArray :=
  ⟨a.shape, a.data.map (fun v => 1 - v)⟩

/-- A concrete parsed-argument record used to instantiate theorems on
specific inputs; its exposure label is "Log", one of the dropdown
choices. -/
def sampleArgs : Args :=
  { filename := ["a.png"]
    output_dir := "out"
    is_photo := false
    exposure_algo := "Log"
    n_classes := 2
    filetype := "PNG"
    transp_bg := false
    invert := true
    post_filter := false
    width := 2
    height := 3
    resolution := 96 }

/-! ### Store lemmas -/

theorem readArr_append_self (st : Store) (a : NpArray) :
    readArr (st ++ [a]) st.length = a := by
  simp [readArr, List.getD_append_right st [a] _ st.length le_rfl]

theorem readArr_append_lt (st : Store) (a : NpArray) (i : Nat) (hi : i < st.length) :
    readArr (st ++ [a]) i = readArr st i := by
  unfold readArr
  exact List.getD_append st [a] _ i hi

/-- Any 3-dimensional input reaches the final
`self.gray_image = rgb2gray(self.gray_image)` line with `self.gray_image`
still unassigned, so `__init__` raises `AttributeError`. -/
theorem baseImageInit_threeDim (st : Store) (r : Nat)
    (h3 : (readArr st r).shape.length = 3) :
    (baseImageInit st r).2 = Except.error InitErr.attributeError := by
  unfold baseImageInit
  by_cases hc : (readArr st r).shape.getLast? = some 4
  · simp [h3, hc, alloc]
  · simp [h3, hc, alloc]

/-- Claim C1: the spec says every (H, W, 3) or (H, W, 4) input is
converted to a gray image in [0,1]; the code instead raises
`AttributeError` on every such input, because `self.gray_image` is read
before it was ever assigned. -/
theorem baseImageInit_color_input_attributeError (st : Store) (r hh ww : Nat)
    (hs : (readArr st r).shape = [hh, ww, 3] ∨ (readArr st r).shape = [hh, ww, 4]) :
    (baseImageInit st r).2 = Except.error InitErr.attributeError := by
  rcases hs with h | h <;> exact baseImageInit_threeDim st r (by rw [h]; rfl)

theorem baseImageInit_color_input_attributeError_witness :
    (baseImageInit [⟨[1, 1, 3], [0, 0, 0]⟩] 0).2 = Except.error InitErr.attributeError :=
  baseImageInit_color_input_attributeError [⟨[1, 1, 3], [0, 0, 0]⟩] 0 1 1 (Or.inl rfl)

/-- Claim C2: the spec says a 2-channel (H, W, 2) array is rejected with a
shape error; the code's shape check only tests the number of dimensions,
so an (H, W, 2) input passes the check (no `ValueError`) and `__init__`
instead fails later with the unrelated `AttributeError`. -/
theorem baseImageInit_two_channel_not_rejected (st : Store) (r hh ww : Nat)
    (hs : (readArr st r).shape = [hh, ww, 2]) :
    (baseImageInit st r).2 = Except.error InitErr.attributeError ∧
    (baseImageInit st r).2 ≠ Except.error InitErr.valueError := by
  have h := baseImageInit_threeDim st r (by rw [hs]; rfl)
  exact ⟨h, by simp [h]⟩

theorem baseImageInit_two_channel_not_rejected_witness :
    (baseImageInit [⟨[1, 1, 2], [0, 0]⟩] 0).2 = Except.error InitErr.attributeError ∧
    (baseImageInit [⟨[1, 1, 2], [0, 0]⟩] 0).2 ≠ Except.error InitErr.valueError :=
  baseImageInit_two_channel_not_rejected [⟨[1, 1, 2], [0, 0]⟩] 0 1 1 rfl

/-- Claim C3: on a single-channel (H, W) input the constructor succeeds
and is a pass-through: `gray_image` is a fresh copy whose contents are
value-equal to the input array, `_orig_gray` is set, and no luminance
conversion runs. -/
theorem baseImageInit_gray_passthrough (st : Store) (r : Nat)
    (h2 : (readArr st r).shape.length = 2) :
    baseImageInit st r =
      (st ++ [readArr st r],
       Except.ok { rgb_image := r, gray_image := some st.length, orig_gray := true }) ∧
    readArr (baseImageInit st r).1 st.length = readArr st r := by
  have heq : baseImageInit st r =
      (st ++ [readArr st r],
       Except.ok { rgb_image := r, gray_image := some st.length, orig_gray := true }) := by
    unfold baseImageInit
    simp [h2, alloc]
  refine ⟨heq, ?_⟩
  rw [heq]
  exact readArr_append_self st (readArr st r)

theorem baseImageInit_gray_passthrough_witness :
    baseImageInit [⟨[1, 2], [0, 1]⟩] 0 =
      ([⟨[1, 2], [0, 1]⟩, ⟨[1, 2], [0, 1]⟩],
       Except.ok { rgb_image := 0, gray_image := some 1, orig_gray := true }) ∧
    readArr (baseImageInit [⟨[1, 2], [0, 1]⟩] 0).1 1 = readArr [⟨[1, 2], [0, 1]⟩] 0 :=
  baseImageInit_gray_passthrough [⟨[1, 2], [0, 1]⟩] 0 rfl

/-- Claim C4: constructing a `BaseImage` never mutates any pre-existing
array cell (in particular the caller's input array keeps its contents),
and whenever construction completes, the stored `gray_image` is a freshly
allocated cell, not an alias of any pre-existing array. -/
theorem baseImageInit_frame (st : Store) (r : Nat) :
    (∀ i, i < st.length → readArr (baseImageInit st r).1 i = readArr st i) ∧
    (∀ s g, (baseImageInit st r).2 = Except.ok s → s.gray_image = some g →
      st.length ≤ g) := by
  unfold baseImageInit
  by_cases h2 : (readArr st r).shape.length = 2
  · simp only [h2, alloc]
    constructor
    · intro i hi
      simpa using readArr_append_lt st _ i hi
    · intro s g hs hg
      simp at hs
      rw [← hs] at hg
      simp at hg
      omega
  · by_cases hc : (readArr st r).shape.length = 3 ∧ (readArr st r).shape.getLast? = some 4
    · simp only [h2, hc, alloc, if_false, if_true]
      constructor
      · intro i hi
        simpa [h2, hc] using readArr_append_lt st _ i hi
      · intro s g hs hg
        simp [h2, hc] at hs
    · by_cases h3 : (readArr st r).shape.length = 3
      · have hl : (readArr st r).shape.getLast? ≠ some 4 := fun hl => hc ⟨h3, hl⟩
        simp [h2, h3, hl]
      · simp [h2, hc, h3]

theorem baseImageInit_frame_witness :
    readArr (baseImageInit [⟨[1, 2], [0, 1]⟩] 0).1 0 = readArr [⟨[1, 2], [0, 1]⟩] 0 ∧
    (1 : Nat) ≤ 1 :=
  ⟨(baseImageInit_frame [⟨[1, 2], [0, 1]⟩] 0).1 0 (by decide),
   (baseImageInit_frame [⟨[1, 2], [0, 1]⟩] 0).2
     { rgb_image := 0, gray_image := some 1, orig_gray := true } 1 rfl rfl⟩

/-! ### GUI argument parsing -/

theorem lookup_eq_none_of_not_mem {α β : Type} [BEq α] [LawfulBEq α]
    (l : List (α × β)) (k : α) (h : k ∉ l.map Prod.fst) :
    l.lookup k = none := by
  induction l with
  | nil => rfl
  | cons x xs ih =>
    simp only [List.map_cons, List.mem_cons] at h
    push_neg at h
    simp [List.lookup, beq_eq_false_iff_ne.mpr h.1, ih h.2]

/-- Claim C8 as stated is false: the label "Log" (offered by the GUI
dropdown) is mapped to the dropdown default label "Sigmoid", not to the
internal method name "sigmoid". -/
theorem parse_args_log_default_counterexample :
    (parse_args sampleArgs).exposure_algo = "Sigmoid" ∧
    (parse_args sampleArgs).exposure_algo ≠ "sigmoid" := by
  constructor
  · rfl
  · decide

/-- Claim C8 (amended): each of the five known dropdown labels maps to its
internal method name, and any other label — including "Log" — is silently
replaced by the display label "Sigmoid" (the `options_mapper.get`
default), not by the internal name "sigmoid". -/
theorem parse_args_exposure_algo_mapping (a : Args) :
    (a.exposure_algo = "Gamma" → (parse_args a).exposure_algo = "gamma") ∧
    (a.exposure_algo = "Sigmoid" → (parse_args a).exposure_algo = "sigmoid") ∧
    (a.exposure_algo = "CLAHE" → (parse_args a).exposure_algo = "clahe") ∧
    (a.exposure_algo = "Histogram Equalization" →
      (parse_args a).exposure_algo = "histeq") ∧
    (a.exposure_algo = "Contrast Stretching" →
      (parse_args a).exposure_algo = "contrast_stretch") ∧
    (a.exposure_algo ∉ options_mapper.map Prod.fst →
      (parse_args a).exposure_algo = "Sigmoid") := by
  refine ⟨?_, ?_, ?_, ?_, ?_, ?_⟩ <;> intro h
  · simp [parse_args, h, options_mapper, List.lookup]
  · simp [parse_args, h, options_mapper, List.lookup]
  · simp [parse_args, h, options_mapper, List.lookup]
  · simp [parse_args, h, options_mapper, List.lookup]
  · simp [parse_args, h, options_mapper, List.lookup]
  · simp [parse_args, lookup_eq_none_of_not_mem options_mapper a.exposure_algo h]

theorem parse_args_exposure_algo_mapping_witness :
    (parse_args sampleArgs).exposure_algo = "Sigmoid" :=
  (parse_args_exposure_algo_mapping sampleArgs).2.2.2.2.2 (by decide)

/-- Claim C9: `resize_settings` is `none` whenever the requested width or
height is non-positive (no error is raised at this layer), and otherwise
it is the pair (width × stored resolution, height × stored resolution). -/
theorem parse_args_resize_settings (a : Args) :
    (a.width ≤ 0 ∨ a.height ≤ 0 → (parse_args a).resize_settings = none) ∧
    (0 < a.width → 0 < a.height →
      (parse_args a).resize_settings =
        some (a.width * ((parse_args a).resolution : ℚ),
              a.height * ((parse_args a).resolution : ℚ))) := by
  constructor
  · intro h
    simp [parse_args, h]
  · intro hw hh
    have h : ¬(a.width ≤ 0 ∨ a.height ≤ 0) := by push_neg; exact ⟨hw, hh⟩
    simp [parse_args, h]

theorem parse_args_resize_settings_witness :
    (parse_args sampleArgs).resize_settings =
      some (sampleArgs.width * ((parse_args sampleArgs).resolution : ℚ),
            sampleArgs.height * ((parse_args sampleArgs).resolution : ℚ)) :=
  (parse_args_resize_settings sampleArgs).2 (by norm_num [sampleArgs])
    (by norm_num [sampleArgs])

/-- Claim C10: the stored resolution equals the requested one when it
exceeds 50, and is silently replaced by 96 when the request is 50 or
below. -/
theorem parse_args_resolution_floor (a : Args) :
    (50 < a.resolution → (parse_args a).resolution = a.resolution) ∧
    (a.resolution ≤ 50 → (parse_args a).resolution = 96) := by
  constructor
  · intro h
    simp [parse_args, h]
  · intro h
    have h2 : ¬(a.resolution > 50) := by omega
    simp [parse_args, h2]

theorem parse_args_resolution_floor_witness :
    (parse_args { sampleArgs with resolution := 50 }).resolution = 96 :=
  (parse_args_resolution_floor { sampleArgs with resolution := 50 }).2 (by norm_num)

/-! ### Boundary Extractor -/

theorem adj4_symm {H W : ℕ} {p q : Fin H × Fin W} (h : adj4 p q) : adj4 q p := by
  unfold adj4 at h ⊢
  omega

/-- The bounds-checked neighbor list contains exactly the 4-adjacent
pixels: border pixels simply have the out-of-bounds directions absent. -/
theorem mem_neighborList {H W : ℕ} (p q : Fin H × Fin W) :
    q ∈ neighborList p ↔ adj4 p q := by
  have hp1 := p.1.isLt
  have hp2 := p.2.isLt
  have hq1 := q.1.isLt
  have hq2 := q.2.isLt
  unfold neighborList adj4
  split_ifs with h1 h2 h3 h4 <;>
    simp [List.mem_append, Prod.ext_iff, Fin.ext_iff] <;>
    omega

/-- Claim C5: a pixel is marked in the boundary mask iff some in-bounds
4-neighbor carries a different label; a pixel all of whose in-bounds
neighbors agree with it — in particular a border pixel whose only
missing comparisons are out of bounds — is never marked. -/
theorem boundary_extractor_spec (H W : ℕ) (lab : Fin H × Fin W → ℕ)
    (p : Fin H × Fin W) :
    (boundaryMask lab p = true ↔ ∃ q, adj4 p q ∧ lab q ≠ lab p) ∧
    ((∀ q, adj4 p q → lab q = lab p) → boundaryMask lab p = false) := by
  have hiff : boundaryMask lab p = true ↔ ∃ q, adj4 p q ∧ lab q ≠ lab p := by
    unfold boundaryMask
    rw [List.any_eq_true]
    constructor
    · rintro ⟨q, hq, hne⟩
      exact ⟨q, (mem_neighborList p q).mp hq, by simpa using hne⟩
    · rintro ⟨q, hadj, hne⟩
      exact ⟨q, (mem_neighborList p q).mpr hadj, by simpa using hne⟩
  refine ⟨hiff, ?_⟩
  intro hall
  by_contra hmask
  rw [Bool.not_eq_false] at hmask
  obtain ⟨q, hadj, hne⟩ := hiff.mp hmask
  exact hne (hall q hadj)

theorem boundary_extractor_spec_witness :
    boundaryMask (fun q : Fin 1 × Fin 2 => q.2.val) ((0 : Fin 1), (0 : Fin 2)) = true :=
  (boundary_extractor_spec 1 2 (fun q => q.2.val) ((0 : Fin 1), (0 : Fin 2))).1.mpr
    ⟨((0 : Fin 1), (1 : Fin 2)), by decide, by decide⟩

/-! ### Compositor invert -/

theorem invert_invert_data (l : List ℚ) :
    (l.map (fun v => 1 - v)).map (fun v => 1 - v) = l := by
  induction l with
  | nil => rfl
  | cons x xs ih => simp [ih, sub_sub_cancel]

/-- Claim C7: the Compositor's invert operation `v ↦ 1 - v` is an exact
involution on rasters. -/
theorem invertRaster_involution (a : NpArray) :
    invertRaster (invertRaster a) = a := by
  cases a
  simp only [invertRaster, NpArray.mk.injEq, true_and]
  exact invert_invert_data _

/-! ### Post Filter: flood fill reaches its fixpoint -/

theorem iterate_fix_of_fix {α : Type} (f : α → α) (s : α) (hfix : f s = s) (n : ℕ) :
    f^[n] s = s := by
  induction n with
  | zero => rfl
  | succ n ih => rw [Function.iterate_succ_apply, hfix, ih]

/-- An inflationary operator on subsets of a finite type reaches a
fixpoint after `Fintype.card` iterations (each non-fixpoint step strictly
grows the set). -/
theorem iterate_card_fixpoint {α : Type} [Fintype α] [DecidableEq α]
    (f : Finset α → Finset α) (hf : ∀ s, s ⊆ f s) (s : Finset α) :
    f (f^[Fintype.card α] s) = f^[Fintype.card α] s := by
  by_contra hne
  have hnofix : ∀ j, j ≤ Fintype.card α → f (f^[j] s) ≠ f^[j] s := by
    intro j hj hfix
    apply hne
    have hiter : f^[Fintype.card α] s = f^[j] s := by
      have hadd : Fintype.card α = (Fintype.card α - j) + j := by omega
      rw [hadd, Function.iterate_add_apply]
      exact iterate_fix_of_fix f _ hfix (Fintype.card α - j)
    rw [hiter, hfix]
  have hgrow : ∀ j, j ≤ Fintype.card α + 1 → s.card + j ≤ (f^[j] s).card := by
    intro j
    induction j with
    | zero => simp
    | succ j ih =>
      intro hj
      have hsub : f^[j] s ⊆ f^[j + 1] s := by
        rw [Function.iterate_succ_apply']
        exact hf _
      have hne2 : f^[j] s ≠ f^[j + 1] s := by
        intro heq
        refine hnofix j (by omega) ?_
        rw [Function.iterate_succ_apply'] at heq
        exact heq.symm
      have hlt : (f^[j] s).card < (f^[j + 1] s).card :=
        Finset.card_lt_card (Finset.ssubset_iff_subset_ne.mpr ⟨hsub, hne2⟩)
      have hih := ih (by omega)
      omega
  have h1 := hgrow (Fintype.card α + 1) le_rfl
  have h2 : (f^[Fintype.card α + 1] s).card ≤ Fintype.card α :=
    le_trans (Finset.card_le_univ _) (le_of_eq Finset.card_univ)
  omega

theorem subset_expandStep {H W : ℕ} (m : Fin H × Fin W → Bool)
    (s : Finset (Fin H × Fin W)) : s ⊆ expandStep m s :=
  Finset.subset_union_left

theorem mem_component_self {H W : ℕ} (m : Fin H × Fin W → Bool) (p : Fin H × Fin W) :
    p ∈ component m p := by
  unfold component
  have hmem : ∀ n, p ∈ (expandStep m)^[n] ({p} : Finset (Fin H × Fin W)) := by
    intro n
    induction n with
    | zero => simp
    | succ n ih =>
      rw [Function.iterate_succ_apply']
      exact subset_expandStep m _ ih
  exact hmem _

theorem expandStep_component {H W : ℕ} (m : Fin H × Fin W → Bool) (p : Fin H × Fin W) :
    expandStep m (component m p) = component m p :=
  iterate_card_fixpoint (expandStep m) (fun s => subset_expandStep m s) {p}

theorem mem_component_conn {H W : ℕ} (m : Fin H × Fin W → Bool) (p q : Fin H × Fin W)
    (h : q ∈ component m p) : Conn m p q := by
  unfold component at h
  have hsound : ∀ n x, x ∈ (expandStep m)^[n] ({p} : Finset (Fin H × Fin W)) →
      Conn m p x := by
    intro n
    induction n with
    | zero =>
      intro x hx
      simp only [Function.iterate_zero_apply, Finset.mem_singleton] at hx
      subst hx
      exact Relation.ReflTransGen.refl
    | succ n ih =>
      intro x hx
      rw [Function.iterate_succ_apply'] at hx
      unfold expandStep at hx
      rcases Finset.mem_union.mp hx with hx | hx
      · exact ih x hx
      · obtain ⟨-, hmx, r, hr, hadj⟩ := Finset.mem_filter.mp hx
        exact Relation.ReflTransGen.tail (ih r hr) ⟨hmx, hadj⟩
  exact hsound _ q h

theorem conn_mem_component {H W : ℕ} (m : Fin H × Fin W → Bool) (p q : Fin H × Fin W)
    (h : Conn m p q) : q ∈ component m p := by
  induction h with
  | refl => exact mem_component_self m p
  | tail hpr hrq ih =>
    rw [← expandStep_component m p]
    unfold expandStep
    apply Finset.mem_union_right
    rw [Finset.mem_filter]
    exact ⟨Finset.mem_univ _, hrq.1, _, ih, hrq.2⟩

theorem conn_on {H W : ℕ} (m : Fin H × Fin W → Bool) (p q : Fin H × Fin W)
    (hp : m p = true) (h : Conn m p q) : m q = true := by
  induction h with
  | refl => exact hp
  | tail _ hrq _ => exact hrq.1

theorem conn_symm {H W : ℕ} (m : Fin H × Fin W → Bool) (p q : Fin H × Fin W)
    (hp : m p = true) (h : Conn m p q) : Conn m q p := by
  induction h with
  | refl => exact Relation.ReflTransGen.refl
  | tail hpr hrq ih =>
    exact Relation.ReflTransGen.trans
      (Relation.ReflTransGen.single ⟨conn_on m p _ hp hpr, adj4_symm hrq.2⟩) ih

theorem component_eq_of_conn {H W : ℕ} (m : Fin H × Fin W → Bool) (p q : Fin H × Fin W)
    (hp : m p = true) (h : Conn m p q) : component m p = component m q := by
  ext x
  constructor
  · intro hx
    exact conn_mem_component m q x
      (Relation.ReflTransGen.trans (conn_symm m p q hp h) (mem_component_conn m p x hx))
  · intro hx
    exact conn_mem_component m p x
      (Relation.ReflTransGen.trans h (mem_component_conn m q x hx))

/-- Claim C6: the Post Filter's output is a pixel-wise subset of its
input mask, and removal is all-or-nothing: if a pixel survives, every
pixel connected to it inside the input mask survives too. -/
theorem post_filter_subset_all_or_nothing (H W : ℕ) (m : Fin H × Fin W → Bool) (t : ℕ) :
    (∀ p, postFilterMask m t p = true → m p = true) ∧
    (∀ p q, postFilterMask m t p = true → Conn m p q → postFilterMask m t q = true) := by
  constructor
  · intro p hp
    exact (Bool.and_eq_true _ _).mp hp |>.1
  · intro p q hp hconn
    obtain ⟨hmp, hcard⟩ := (Bool.and_eq_true _ _).mp hp
    have hcard2 := of_decide_eq_true hcard
    have hmq := conn_on m p q hmp hconn
    have hcomp := component_eq_of_conn m p q hmp hconn
    unfold postFilterMask
    rw [hmq, ← hcomp]
    simp [hcard2]

theorem post_filter_subset_all_or_nothing_witness :
    postFilterMask (fun _ : Fin 1 × Fin 2 => true) 1 ((0 : Fin 1), (1 : Fin 2)) = true :=
  (post_filter_subset_all_or_nothing 1 2 (fun _ => true) 1).2
    ((0 : Fin 1), (0 : Fin 2)) ((0 : Fin 1), (1 : Fin 2))
    (by decide)
    (Relation.ReflTransGen.single ⟨rfl, by decide⟩)

end ArtProc
